import Mathlib

set_option linter.unusedVariables false

/-!
Verification of the `reranker` reranking toolkit.

Shallow embedding conventions:
* Python floats are modelled as rationals (`ℚ`); the comparators that need
  square roots (`cosine` and the numpy norm) are modelled over `ℝ`.
* `datetime` values are modelled as integer epoch seconds; `timedelta.seconds`
  is the attribute holding the second component of the normalised timedelta,
  i.e. the elapsed seconds modulo one day (not the total).
* Fallible code returns `Except String`; the strings name the Python
  exception that the corresponding source line raises.
* `t ** decay_rate` is abstracted by a function parameter `powD : ℚ → ℚ`
  (the map `t ↦ t ** decay_rate`); no claim settled here depends on its shape.
* `DiverseRanker.threshold` is a float that callers may set to `-inf`,
  so it is modelled as `WithBot ℚ`; the only comparison performed on it is
  `mmr < threshold`, which `WithBot` reproduces (`mmr < -inf` is `False`).
* Python `list.sort(key=k, reverse=True)` sorts in place and returns `None`;
  with `key=scores.__getitem__` CPython evaluates `scores[doc]` for every
  element `doc` of the list, which raises `TypeError` because a `Record` is
  not a list index.  On an empty list no key is evaluated and the call
  returns `None`.  `pySortByScores` captures exactly this behaviour.
-/

namespace Reranker

/-- `reranker.spec.Record` (a msgspec struct): the fields the rankers read.
Every numeric signal defaults to `1.0` as in the source; the optional
`vector` and `updated_at` signals default to `None`. -/
structure Record where
  id : Int := 0
  text : String := ""
  vector : Option (List ℚ) := none
  score : ℚ := 1
  vector_sim : ℚ := 1
  title_sim : ℚ := 1
  content_bm25 : ℚ := 1
  title_bm25 : ℚ := 1
  updated_at : Option Int := none
  boost : ℚ := 1
deriving DecidableEq

instance : Inhabited Record := ⟨{}⟩

/-- Message of the `ValueError` raised by `DiverseRanker.rank` when the batch
is empty or its first document has no vector. -/
def diverseMissingMsg : String := "ValueError: `vector` is required for diverse ranking"

/-- Message of the `ValueError` raised by `TimeDecayRanker.score` when the
batch is empty or its first document has no `updated_at`. -/
def timeDecayMissingMsg : String := "ValueError: doc `created_at` is required for time decay ranking"

/-- Message of the `TypeError` numpy raises when a similarity is computed
against a document (or query) whose `vector` is `None`. -/
def vecNoneTypeMsg : String := "TypeError: vector is None in distance computation"

/-- Message of the `TypeError` raised by `datetime.now() - None` when a later
document lacks `updated_at` after the first-document check passed. -/
def updNoneTypeMsg : String := "TypeError: unsupported operand type for datetime subtraction"

/-- Message of the `TypeError` raised by `docs.sort(key=scores.__getitem__)`:
the key function indexes the score list with a `Record`. -/
def sortKeyTypeMsg : String := "TypeError: list indices must be integers or slices, not Record"

/-- `docs.sort(key=scores.__getitem__, reverse=True)` as every sort-based
`rank` method calls it: on a non-empty list CPython evaluates
`scores[doc]` for each `doc` and raises `TypeError`; on an empty list no key
is evaluated, the in-place sort succeeds and the expression evaluates to
`None` (modelled as `none`), which is what `rank` then returns. -/
def pySortByScores (scores : List ℚ) (docs : List Record) :
    Except String (Option (List Record)) :=
  if docs.isEmpty then Except.ok none else Except.error sortKeyTypeMsg

/-- `(now - record.updated_at).seconds / 3600.0` from `TimeDecayRanker.score`:
the `seconds` attribute of a normalised timedelta is the elapsed seconds
modulo one day (86400), not the total elapsed seconds. -/
def hoursSinceUpdated (now upd : Int) : ℚ :=
  (((now - upd) % 86400 : Int) : ℚ) / 3600

/-- A Python list comprehension whose body may raise, e.g.
`[f(doc) for doc in docs]`: the first raise aborts the whole comprehension. -/
def mapExcept (f : α → Except String β) : List α → Except String (List β)
  | [] => Except.ok []
  | a :: as => do
    let b ← f a
    let bs ← mapExcept f as
    pure (b :: bs)

namespace TimeDecayRanker

/-- `TimeDecayRanker.score`: fail unless the first document carries
`updated_at`, then score each document as
`record.score / (2 + (now - record.updated_at).seconds / 3600.0) ** decay_rate`.
`powD` abstracts `(· ** decay_rate)`; `query` is unused by the source. -/
def score (powD : ℚ → ℚ) (now : Int) (query : Record) (docs : List Record) :
    Except String (List ℚ) :=
  if docs.isEmpty || ((docs.headD default).updated_at).isNone then
    Except.error timeDecayMissingMsg
  else
    mapExcept (fun r =>
      match r.updated_at with
      | none => Except.error updNoneTypeMsg
      | some t => Except.ok (r.score / powD (2 + hoursSinceUpdated now t))) docs

/-- `TimeDecayRanker.rank`: compute scores, then
`return docs.sort(key=scores.__getitem__, reverse=True)`. -/
def rank (powD : ℚ → ℚ) (now : Int) (query : Record) (docs : List Record) :
    Except String (Option (List Record)) := do
  let scores ← score powD now query docs
  pySortByScores scores docs

end TimeDecayRanker

namespace KeywordBoost

/-- `KeywordBoost.score`: if the batch is non-empty and the first document's
`title_bm25` is truthy (non-zero), blend title and content BM25 by
`title_content_ratio`, else use `content_bm25` alone; always multiplied by
the document's `boost`. -/
def score (title_content_ratio : ℚ) (query : Record) (docs : List Record) :
    List ℚ :=
  if !docs.isEmpty && (docs.headD default).title_bm25 != 0 then
    docs.map (fun d =>
      (d.title_bm25 * title_content_ratio
        + d.content_bm25 * (1 - title_content_ratio)) * d.boost)
  else
    docs.map (fun d => d.content_bm25 * d.boost)

/-- `KeywordBoost.rank`: `return docs.sort(key=scores.__getitem__, reverse=True)`. -/
def rank (title_content_ratio : ℚ) (query : Record) (docs : List Record) :
    Except String (Option (List Record)) :=
  pySortByScores (score title_content_ratio query docs) docs

end KeywordBoost

namespace VectorBoost

/-- `VectorBoost.score`: same shape as `KeywordBoost.score` over
`title_sim` / `vector_sim`. -/
def score (title_content_ratio : ℚ) (query : Record) (docs : List Record) :
    List ℚ :=
  if !docs.isEmpty && (docs.headD default).title_sim != 0 then
    docs.map (fun d =>
      (d.title_sim * title_content_ratio
        + d.vector_sim * (1 - title_content_ratio)) * d.boost)
  else
    docs.map (fun d => d.vector_sim * d.boost)

/-- `VectorBoost.rank`: `return docs.sort(key=scores.__getitem__, reverse=True)`. -/
def rank (title_content_ratio : ℚ) (query : Record) (docs : List Record) :
    Except String (Option (List Record)) :=
  pySortByScores (score title_content_ratio query docs) docs

end VectorBoost

namespace HybridRanker

/-- `HybridRanker.score`: the elementwise (`zip`) product of the held
`TimeDecayRanker`'s and `VectorBoost`'s score lists. -/
def score (powD : ℚ → ℚ) (title_content_ratio : ℚ) (now : Int)
    (query : Record) (docs : List Record) : Except String (List ℚ) := do
  let decay_score ← TimeDecayRanker.score powD now query docs
  let vector_score := VectorBoost.score title_content_ratio query docs
  pure (List.zipWith (fun a b => a * b) decay_score vector_score)

/-- `HybridRanker.rank`: `return docs.sort(key=scores.__getitem__, reverse=True)`. -/
def rank (powD : ℚ → ℚ) (title_content_ratio : ℚ) (now : Int)
    (query : Record) (docs : List Record) :
    Except String (Option (List Record)) := do
  let scores ← score powD title_content_ratio now query docs
  pySortByScores scores docs

end HybridRanker

/-- A document (or query) embedding vector. -/
abbrev Vec := List ℚ

/-- A pluggable `Distance` comparator, as `DiverseRanker.distance`. -/
abbrev DistFn := Vec → Vec → ℚ

/-- `distance.dot_product` over the rational model: `np.dot(x, y)`. -/
def dotQ (x y : Vec) : ℚ := (List.zipWith (fun a b => a * b) x y).sum

/-- Read `record.vector`; computing a similarity against a `None` vector
raises a numpy `TypeError`. -/
def getVec (r : Record) : Except String Vec :=
  match r.vector with
  | some v => Except.ok v
  | none => Except.error vecNoneTypeMsg

/-- Python `max(xs) if xs else 0`: the maximum of a list, `0` on the empty
list — exactly the guarded max-term of the MMR formula. -/
def pyMax0 : List ℚ → ℚ
  | [] => 0
  | x :: xs => xs.foldl max x

/-- One candidate's MMR value,
`lambda_const * sim_q - (1 - lambda_const) * sim_d`, where `sim_d` is the
maximal similarity to an already selected document (`0` if none). -/
def mmrScore (lambda_const : ℚ) (simq : ℕ → ℚ) (simd : ℕ → ℕ → ℚ)
    (selected : List ℕ) (c : ℕ) : ℚ :=
  lambda_const * simq c
    - (1 - lambda_const) * pyMax0 (selected.map (fun s => simd c s))

/-- `max_idx = scores.index(max(scores)); candidates.pop(max_idx)`:
return the earliest element attaining the maximal score, paired with the
list with that position removed. -/
def popFirstMax (f : ℕ → ℚ) : List ℕ → ℕ × List ℕ
  | [] => (0, [])
  | [c] => (c, [])
  | c :: c2 :: cs =>
    let p := popFirstMax f (c2 :: cs)
    if f c < f p.1 then (p.1, c :: p.2) else (c, c2 :: cs)

/-- The `while candidates:` loop of `DiverseRanker.rank`.  Each iteration
moves one candidate into `selected`, so `fuel = candidates.length` runs the
loop to completion; the fuel-exhaustion branch is unreachable under that
call pattern (`popFirstMax` removes exactly one element per step). -/
def mmrLoop (lambda_const : ℚ) (threshold : WithBot ℚ)
    (simq : ℕ → ℚ) (simd : ℕ → ℕ → ℚ) :
    ℕ → List ℕ → List ℕ → List ℕ
  | 0, _, selected => selected
  | _ + 1, [], selected => selected
  | fuel + 1, c :: cs, selected =>
    let p := popFirstMax (mmrScore lambda_const simq simd selected) (c :: cs)
    if (mmrScore lambda_const simq simd selected p.1 : WithBot ℚ) < threshold then
      selected
    else
      mmrLoop lambda_const threshold simq simd fuel p.2 (selected ++ [p.1])

namespace DiverseRanker

/-- `DiverseRanker.rank`.  The pre-computed similarity dict is modelled by
the two lookup functions it determines: `query_{i}` maps to
`distance(query.vector, docs[i].vector)`, and `{i}_{j}` (for `i ≠ j`) maps to
`distance` applied to the pair in index order, since the population loop
stores `distance(docs[i].vector, docs[j].vector)` under both `{i}_{j}` and
`{j}_{i}` for `i < j`.  The loop then selects greedily until the candidate
list is empty or the best MMR value falls below `threshold`, and the selected
indices are mapped back to documents (`getD` totalises `docs[i]` for
indices that are provably in range). -/
def rank (lambda_const : ℚ) (threshold : WithBot ℚ) (distance : DistFn)
    (query : Record) (docs : List Record) : Except String (List Record) :=
  if docs.isEmpty || ((docs.headD default).vector).isNone then
    Except.error diverseMissingMsg
  else do
    let vecs ← mapExcept getVec docs
    let qv ← getVec query
    let simq : ℕ → ℚ := fun i => distance qv (vecs.getD i [])
    let simd : ℕ → ℕ → ℚ := fun i j =>
      if i < j then distance (vecs.getD i []) (vecs.getD j [])
      else distance (vecs.getD j []) (vecs.getD i [])
    let selected := mmrLoop lambda_const threshold simq simd
      docs.length (List.range docs.length) []
    pure (selected.map (fun i => docs.getD i default))

end DiverseRanker

/-- Greedy MMR selection exactly as the specification words it: repeatedly
pick, among the remaining candidates, the first one whose MMR value attains
the maximum (ties broken by first occurrence in candidate order); stop when
the best value is below the threshold, dropping the remaining candidates;
the selected elements, in order of choice, are the result.  Written
independently of `mmrLoop`: the argmax is phrased as a `find?` for the
maximal value and removal as `List.erase`. -/
def specMMRLoop (lambda_const : ℚ) (threshold : WithBot ℚ)
    (simq : ℕ → ℚ) (simd : ℕ → ℕ → ℚ) :
    ℕ → List ℕ → List ℕ → List ℕ
  | 0, _, selected => selected
  | _ + 1, [], selected => selected
  | fuel + 1, c :: cs, selected =>
    let f := mmrScore lambda_const simq simd selected
    match (c :: cs).find? (fun x => f x == pyMax0 ((c :: cs).map f)) with
    | none => selected
    | some best =>
      if (f best : WithBot ℚ) < threshold then selected
      else specMMRLoop lambda_const threshold simq simd fuel
        ((c :: cs).erase best) (selected ++ [best])

/-- `distance.dot_product` over the reals: `np.dot(x, y)`. -/
def dot_product (x y : List ℝ) : ℝ := (List.zipWith (fun a b => a * b) x y).sum

/-- `np.linalg.norm(x)` for a 1-d array. -/
noncomputable def npNorm (x : List ℝ) : ℝ := Real.sqrt (dot_product x x)

/-- `distance.cosine`: `1 - np.dot(x, y) / (np.linalg.norm(x) * np.linalg.norm(y))`. -/
noncomputable def cosine (x y : List ℝ) : ℝ :=
  1 - dot_product x y / (npNorm x * npNorm y)

/-- A pipeline stage, i.e. the `rank` method of one `Ranker`. -/
abbrev Stage := Record → List Record → Except String (List Record)

namespace ReRanker

/-- `ReRanker.rank_records`: fold the document list through each step in
order; a raising step aborts the whole call. -/
def rank_records (steps : List Stage) (query : Record) (docs : List Record) :
    Except String (List Record) :=
  steps.foldlM (fun ds st => st query ds) docs

end ReRanker

/-- `docs[i].vector` totalised: the vector of the `i`-th document (the empty
vector for an out-of-range index or a missing signal; the uses below are
all in range with the signal present). -/
def vecAt (docs : List Record) (i : ℕ) : Vec :=
  ((docs.getD i default).vector).getD []

/-- A concrete query record used to instantiate theorems. -/
def mmrQuery : Record := { text := "q", vector := some [1, 0] }

/-- A concrete document: highly similar to the query. -/
def mmrDoc1 : Record := { id := 1, text := "a", vector := some [2, 0] }

/-- A concrete document: orthogonal to the query and to `mmrDoc1`. -/
def mmrDoc2 : Record := { id := 2, text := "b", vector := some [0, 3] }

/-- A concrete document: redundant with `mmrDoc1`. -/
def mmrDoc3 : Record := { id := 3, text := "c", vector := some [2, 0] }

theorem dotQ_comm : ∀ (x y : Vec), dotQ x y = dotQ y x := by
  intro x
  induction x with
  | nil => intro y; cases y <;> rfl
  | cons a as ih =>
    intro y
    cases y with
    | nil => rfl
    | cons b bs =>
      have h := ih bs
      simp only [dotQ, List.zipWith_cons_cons, List.sum_cons] at h ⊢
      rw [mul_comm a b, h]

theorem exceptBind_pure (e : Except String α) : (e >>= pure) = e := by
  cases e <;> rfl

theorem mapExcept_ok_length (f : α → Except String β) :
    ∀ (l : List α) (out : List β), mapExcept f l = Except.ok out →
      out.length = l.length := by
  intro l
  induction l with
  | nil =>
    intro out h
    simp only [mapExcept] at h
    cases h
    rfl
  | cons a as ih =>
    intro out h
    simp only [mapExcept] at h
    cases hfa : f a with
    | error e => rw [hfa] at h; simp [Bind.bind, Except.bind] at h
    | ok b =>
      rw [hfa] at h
      cases hrest : mapExcept f as with
      | error e => rw [hrest] at h; simp [Bind.bind, Except.bind] at h
      | ok bs =>
        rw [hrest] at h
        simp only [Bind.bind, Except.bind, pure, Except.pure] at h
        cases h
        simp [ih bs hrest]

theorem mapExcept_error_msg (f : α → Except String β) (m : String)
    (hf : ∀ a e, f a = Except.error e → e = m) :
    ∀ (l : List α) (e : String), mapExcept f l = Except.error e → e = m := by
  intro l
  induction l with
  | nil => intro e h; simp [mapExcept] at h
  | cons a as ih =>
    intro e h
    simp only [mapExcept] at h
    cases hfa : f a with
    | error e2 =>
      rw [hfa] at h
      simp only [Bind.bind, Except.bind] at h
      cases h
      exact hf a _ hfa
    | ok b =>
      rw [hfa] at h
      simp only [Bind.bind, Except.bind] at h
      cases hrest : mapExcept f as with
      | error e2 =>
        rw [hrest] at h
        simp only [Bind.bind, Except.bind] at h
        cases h
        exact ih _ hrest
      | ok bs =>
        rw [hrest] at h
        simp [Bind.bind, Except.bind, pure, Except.pure] at h

theorem mapExcept_getVec_ok (docs : List Record)
    (hv : ∀ r ∈ docs, r.vector.isSome) :
    mapExcept getVec docs = Except.ok (docs.map fun r => r.vector.getD []) := by
  induction docs with
  | nil => rfl
  | cons d ds ih =>
    obtain ⟨v, hv0⟩ := Option.isSome_iff_exists.mp (hv d (by simp))
    have hrest := ih (fun r hr => hv r (by simp [hr]))
    simp [mapExcept, getVec, hv0, hrest, Bind.bind, Except.bind, pure, Except.pure]

theorem getD_map_vector : ∀ (docs : List Record) (i : ℕ),
    (docs.map fun r => r.vector.getD []).getD i [] = vecAt docs i := by
  intro docs
  induction docs with
  | nil =>
    intro i
    simp [vecAt]
    rfl
  | cons d ds ih =>
    intro i
    cases i with
    | zero => simp [vecAt]
    | succ n => simpa [vecAt] using ih n

theorem foldl_max_comm (a b : ℚ) (l : List ℚ) :
    l.foldl max (max a b) = max a (l.foldl max b) := by
  induction l generalizing b with
  | nil => rfl
  | cons c cl ih =>
    show cl.foldl max (max (max a b) c) = max a (cl.foldl max (max b c))
    rw [max_assoc, ih]

theorem pyMax0_cons_cons (x y : ℚ) (l : List ℚ) :
    pyMax0 (x :: y :: l) = max x (pyMax0 (y :: l)) := by
  show (y :: l).foldl max x = max x (l.foldl max y)
  show l.foldl max (max x y) = max x (l.foldl max y)
  exact foldl_max_comm x y l

theorem popFirstMax_length (f : ℕ → ℚ) : ∀ (c : ℕ) (cs : List ℕ),
    (popFirstMax f (c :: cs)).2.length = cs.length := by
  intro c cs
  induction cs generalizing c with
  | nil => rfl
  | cons c2 cs ih =>
    by_cases h : f c < f (popFirstMax f (c2 :: cs)).1 <;>
      simp [popFirstMax, h, ih c2]

theorem popFirstMax_isMax (f : ℕ → ℚ) : ∀ (c : ℕ) (cs : List ℕ),
    f (popFirstMax f (c :: cs)).1 = pyMax0 ((c :: cs).map f) := by
  intro c cs
  induction cs generalizing c with
  | nil => rfl
  | cons c2 cs ih =>
    have hmax : pyMax0 ((c :: c2 :: cs).map f)
        = max (f c) (pyMax0 ((c2 :: cs).map f)) := by
      simpa using pyMax0_cons_cons (f c) (f c2) (cs.map f)
    by_cases h : f c < f (popFirstMax f (c2 :: cs)).1
    · simp only [popFirstMax, h, if_true, hmax, ← ih c2]
      exact (max_eq_right (le_of_lt h)).symm
    · simp only [popFirstMax, h, if_false, hmax, ← ih c2]
      exact (max_eq_left (le_of_not_lt h)).symm

theorem popFirstMax_find (f : ℕ → ℚ) : ∀ (c : ℕ) (cs : List ℕ),
    (c :: cs).find? (fun x => f x == pyMax0 ((c :: cs).map f))
      = some (popFirstMax f (c :: cs)).1 := by
  intro c cs
  induction cs generalizing c with
  | nil =>
    show [c].find? (fun x => f x == pyMax0 [f c]) = some c
    simp [List.find?, pyMax0]
  | cons c2 cs ih =>
    have hmax : pyMax0 ((c :: c2 :: cs).map f)
        = max (f c) (pyMax0 ((c2 :: cs).map f)) := by
      simpa using pyMax0_cons_cons (f c) (f c2) (cs.map f)
    have himax := popFirstMax_isMax f c2 cs
    by_cases h : f c < f (popFirstMax f (c2 :: cs)).1
    · have hM : pyMax0 ((c :: c2 :: cs).map f) = pyMax0 ((c2 :: cs).map f) := by
        rw [hmax, ← himax]
        exact max_eq_right (le_of_lt h)
      simp only [popFirstMax, h, if_true]
      have hne : ¬ ((fun x => f x == pyMax0 ((c :: c2 :: cs).map f)) c = true) := by
        show ¬ ((f c == pyMax0 (List.map f (c :: c2 :: cs))) = true)
        rw [hM, ← himax, beq_iff_eq]
        exact ne_of_lt h
      refine (@List.find?_cons_of_neg ℕ
        (fun x => f x == pyMax0 ((c :: c2 :: cs).map f)) c (c2 :: cs) hne).trans ?_
      simp only [hM]
      exact ih c2
    · have hM : pyMax0 ((c :: c2 :: cs).map f) = f c := by
        rw [hmax, ← himax]
        exact max_eq_left (le_of_not_lt h)
      simp only [popFirstMax, h, if_false]
      have hpos : (fun x => f x == pyMax0 ((c :: c2 :: cs).map f)) c = true := by
        show (f c == pyMax0 (List.map f (c :: c2 :: cs))) = true
        rw [hM, beq_iff_eq]
      exact @List.find?_cons_of_pos ℕ
        (fun x => f x == pyMax0 ((c :: c2 :: cs).map f)) c (c2 :: cs) hpos

theorem popFirstMax_erase (f : ℕ → ℚ) : ∀ (c : ℕ) (cs : List ℕ),
    (popFirstMax f (c :: cs)).2 = (c :: cs).erase (popFirstMax f (c :: cs)).1 := by
  intro c cs
  induction cs generalizing c with
  | nil => simp [popFirstMax, List.erase_cons_head]
  | cons c2 cs ih =>
    by_cases h : f c < f (popFirstMax f (c2 :: cs)).1
    · have hne : c ≠ (popFirstMax f (c2 :: cs)).1 := by
        intro he
        rw [he] at h
        exact lt_irrefl _ h
      simp only [popFirstMax, h, if_true]
      rw [List.erase_cons_tail, ih c2]
      simpa using hne
    · simp [popFirstMax, h, List.erase_cons_head]

theorem popFirstMax_mem (f : ℕ → ℚ) (c : ℕ) (cs : List ℕ) :
    (popFirstMax f (c :: cs)).1 ∈ c :: cs :=
  List.mem_of_find?_eq_some (popFirstMax_find f c cs)

theorem popFirstMax_perm (f : ℕ → ℚ) (c : ℕ) (cs : List ℕ) :
    ((popFirstMax f (c :: cs)).1 :: (popFirstMax f (c :: cs)).2).Perm (c :: cs) := by
  rw [popFirstMax_erase]
  exact (List.perm_cons_erase (popFirstMax_mem f c cs)).symm

theorem mmrLoop_eq_specMMRLoop (lam : ℚ) (thr : WithBot ℚ)
    (simq : ℕ → ℚ) (simd : ℕ → ℕ → ℚ) :
    ∀ (fuel : ℕ) (cands selected : List ℕ),
      mmrLoop lam thr simq simd fuel cands selected
        = specMMRLoop lam thr simq simd fuel cands selected := by
  intro fuel
  induction fuel with
  | zero => intro cands selected; rfl
  | succ n ih =>
    intro cands selected
    cases cands with
    | nil => rfl
    | cons c cs =>
      show (if ((mmrScore lam simq simd selected
            (popFirstMax (mmrScore lam simq simd selected) (c :: cs)).1 : ℚ) : WithBot ℚ)
              < thr then selected
          else mmrLoop lam thr simq simd n
            (popFirstMax (mmrScore lam simq simd selected) (c :: cs)).2
            (selected ++ [(popFirstMax (mmrScore lam simq simd selected) (c :: cs)).1]))
        = specMMRLoop lam thr simq simd (n + 1) (c :: cs) selected
      rw [specMMRLoop]
      rw [popFirstMax_find (mmrScore lam simq simd selected) c cs]
      by_cases hth : ((mmrScore lam simq simd selected
          (popFirstMax (mmrScore lam simq simd selected) (c :: cs)).1 : ℚ) : WithBot ℚ) < thr
      · simp only [hth, if_true]
      · simp only [hth, if_false]
        rw [← popFirstMax_erase (mmrScore lam simq simd selected) c cs]
        exact ih _ _

theorem mmrLoop_bot_perm (lam : ℚ) (simq : ℕ → ℚ) (simd : ℕ → ℕ → ℚ) :
    ∀ (fuel : ℕ) (cands selected : List ℕ), cands.length ≤ fuel →
      (mmrLoop lam ⊥ simq simd fuel cands selected).Perm (selected ++ cands) := by
  intro fuel
  induction fuel with
  | zero =>
    intro cands selected h
    have hc : cands = [] := List.length_eq_zero.mp (Nat.le_zero.mp h)
    subst hc
    simp [mmrLoop]
  | succ n ih =>
    intro cands selected h
    cases cands with
    | nil => simp [mmrLoop]
    | cons c cs =>
      show (if ((mmrScore lam simq simd selected
            (popFirstMax (mmrScore lam simq simd selected) (c :: cs)).1 : ℚ) : WithBot ℚ)
              < ⊥ then selected
          else mmrLoop lam ⊥ simq simd n
            (popFirstMax (mmrScore lam simq simd selected) (c :: cs)).2
            (selected ++ [(popFirstMax (mmrScore lam simq simd selected) (c :: cs)).1])).Perm
          (selected ++ c :: cs)
      rw [if_neg (not_lt_bot)]
      have hlen : (popFirstMax (mmrScore lam simq simd selected) (c :: cs)).2.length ≤ n := by
        rw [popFirstMax_length]
        simpa using h
      refine (ih _ _ hlen).trans ?_
      rw [List.append_assoc, List.singleton_append]
      exact List.Perm.append_left selected
        (popFirstMax_perm (mmrScore lam simq simd selected) c cs)

theorem range_map_getD : ∀ (docs : List Record),
    (List.range docs.length).map (fun i => docs.getD i default) = docs := by
  intro docs
  induction docs with
  | nil => rfl
  | cons d ds ih =>
    show (List.range (ds.length + 1)).map (fun i => (d :: ds).getD i default)
      = d :: ds
    rw [List.range_succ_eq_map, List.map_cons, List.map_map]
    refine congrArg (d :: ·) ?_
    calc (List.range ds.length).map ((fun i => (d :: ds).getD i default) ∘ Nat.succ)
        = (List.range ds.length).map (fun i => ds.getD i default) := by
          refine List.map_congr_left ?_
          intro i hi
          rfl
      _ = ds := ih

theorem getVec_error_msg : ∀ (a : Record) (e : String),
    getVec a = Except.error e → e = vecNoneTypeMsg := by
  intro a e ha
  unfold getVec at ha
  cases hv : a.vector with
  | none => rw [hv] at ha; cases ha; rfl
  | some v => rw [hv] at ha; cases ha

theorem vecNone_ne_diverseMissing : vecNoneTypeMsg ≠ diverseMissingMsg := by decide

theorem updNone_ne_timeDecayMissing : updNoneTypeMsg ≠ timeDecayMissingMsg := by decide

theorem dot_product_cons (a b : ℝ) (as bs : List ℝ) :
    dot_product (a :: as) (b :: bs) = a * b + dot_product as bs := by
  simp [dot_product]

theorem dot_product_comm : ∀ (x y : List ℝ), dot_product x y = dot_product y x := by
  intro x
  induction x with
  | nil => intro y; cases y <;> rfl
  | cons a as ih =>
    intro y
    cases y with
    | nil => rfl
    | cons b bs => rw [dot_product_cons, dot_product_cons, mul_comm, ih bs]

theorem dot_self_nonneg (x : List ℝ) : 0 ≤ dot_product x x := by
  induction x with
  | nil => simp [dot_product]
  | cons a as ih =>
    rw [dot_product_cons]
    exact add_nonneg (mul_self_nonneg a) ih

theorem dot_self_pos (x : List ℝ) (hx : ∃ a ∈ x, a ≠ 0) : 0 < dot_product x x := by
  induction x with
  | nil => simp at hx
  | cons a as ih =>
    rw [dot_product_cons]
    rcases hx with ⟨b, hb, hb0⟩
    rcases List.mem_cons.mp hb with h | h
    · subst h
      exact add_pos_of_pos_of_nonneg (mul_self_pos.mpr hb0) (dot_self_nonneg as)
    · exact add_pos_of_nonneg_of_pos (mul_self_nonneg a) (ih ⟨b, h, hb0⟩)

theorem dot_product_eq_sum_range : ∀ (x y : List ℝ),
    dot_product x y = ∑ i ∈ Finset.range (min x.length y.length),
      x.getD i 0 * y.getD i 0 := by
  intro x
  induction x with
  | nil => intro y; simp [dot_product]
  | cons a as ih =>
    intro y
    cases y with
    | nil => simp [dot_product]
    | cons b bs =>
      rw [dot_product_cons, ih bs]
      show _ = ∑ i ∈ Finset.range (min (as.length + 1) (bs.length + 1)), _
      rw [Nat.succ_min_succ, Finset.sum_range_succ']
      simp [add_comm]

theorem dot_product_le_norms (x y : List ℝ) (hlen : x.length = y.length) :
    dot_product x y ≤ npNorm x * npNorm y := by
  have hsq : (dot_product x y) ^ 2 ≤ dot_product x x * dot_product y y := by
    rw [dot_product_eq_sum_range x y, dot_product_eq_sum_range x x,
      dot_product_eq_sum_range y y, hlen, min_self]
    have h := Finset.sum_mul_sq_le_sq_mul_sq (Finset.range y.length)
      (fun i => x.getD i 0) (fun i => y.getD i 0)
    calc (∑ i ∈ Finset.range y.length, x.getD i 0 * y.getD i 0) ^ 2
        ≤ (∑ i ∈ Finset.range y.length, x.getD i 0 ^ 2)
          * ∑ i ∈ Finset.range y.length, y.getD i 0 ^ 2 := h
      _ = (∑ i ∈ Finset.range y.length, x.getD i 0 * x.getD i 0)
          * ∑ i ∈ Finset.range y.length, y.getD i 0 * y.getD i 0 := by
          simp [pow_two]
  calc dot_product x y ≤ |dot_product x y| := le_abs_self _
    _ = Real.sqrt ((dot_product x y) ^ 2) := (Real.sqrt_sq_eq_abs _).symm
    _ ≤ Real.sqrt (dot_product x x * dot_product y y) := Real.sqrt_le_sqrt hsq
    _ = npNorm x * npNorm y := by
        rw [Real.sqrt_mul (dot_self_nonneg x)]
        rfl

theorem npNorm_pos (x : List ℝ) (hx : ∃ a ∈ x, a ≠ 0) : 0 < npNorm x :=
  Real.sqrt_pos.mpr (dot_self_pos x hx)

theorem cosine_self_eq_zero (x : List ℝ) (hx : ∃ a ∈ x, a ≠ 0) :
    cosine x x = 0 := by
  have hpos := dot_self_pos x hx
  rw [cosine]
  rw [show npNorm x * npNorm x = dot_product x x from
    Real.mul_self_sqrt (dot_self_nonneg x)]
  rw [div_self (ne_of_gt hpos)]
  ring

/-- C1.  The common rank policy claims every strategy returns the input
documents stably sorted by descending score and truncated to `top_k`.  The
code instead executes `docs.sort(key=scores.__getitem__, reverse=True)`:
the key indexes the score list with a `Record`, so on any non-empty batch
`rank` raises `TypeError` and returns no list at all (and `list.sort`
returns `None` even when it succeeds).  Evaluated here for
`HybridRanker.rank` on a well-formed two-document batch. -/
theorem hybrid_rank_raises_sort_type_error :
    HybridRanker.rank (fun t => t) (7/10) 3600 {}
      [{ updated_at := some 0 }, { updated_at := some 3600 }]
      = Except.error sortKeyTypeMsg := rfl

/-- C2.  The claim says `rank` always returns a list of at most (and without
truncation exactly) `len(docs)` documents.  The code's
`return docs.sort(key=scores.__getitem__, reverse=True)` raises `TypeError`
on any non-empty batch and returns Python `None` (not a list) on an empty
one, shown here for `TimeDecayRanker.rank` and `KeywordBoost.rank`. -/
theorem time_decay_rank_returns_no_list :
    TimeDecayRanker.rank (fun t => t) 3600 {} [{ updated_at := some 0 }]
      = Except.error sortKeyTypeMsg
    ∧ KeywordBoost.rank (7/10) {} [] = Except.ok none := ⟨rfl, rfl⟩

/-- C3.  `DiverseRanker.rank` implements greedy MMR: under the strategy's
precondition (non-empty batch, every document and the query carrying a
vector) and for any symmetric distance comparator, the returned value is
exactly the specification-level greedy MMR selection `specMMRLoop` — pick
the first candidate attaining the maximal
`λ·sim(q,c) − (1−λ)·max(sim(c,s) for s in selected)` (max-term 0 when
nothing is selected), stop as soon as the best value is below the
threshold dropping the remaining candidates, and return the selected
documents in choice order. -/
theorem diverse_rank_is_greedy_mmr (lam : ℚ) (thr : WithBot ℚ)
    (dist : DistFn) (query : Record)
    (docs : List Record) (hne : docs ≠ [])
    (hv : ∀ r ∈ docs, r.vector.isSome) (hq : query.vector.isSome)
    (hsym : ∀ a b, dist a b = dist b a) :
    DiverseRanker.rank lam thr dist query docs
      = Except.ok ((specMMRLoop lam thr
          (fun i => dist (query.vector.getD []) (vecAt docs i))
          (fun i j => dist (vecAt docs i) (vecAt docs j))
          docs.length (List.range docs.length) []).map
            (fun i => docs.getD i default)) := by
  obtain ⟨qv, hqv⟩ := Option.isSome_iff_exists.mp hq
  have hguard : (docs.isEmpty || ((docs.headD default).vector).isNone) = false := by
    cases docs with
    | nil => exact absurd rfl hne
    | cons d dsx =>
      obtain ⟨v0, hv0⟩ := Option.isSome_iff_exists.mp (hv d (by simp))
      simp [hv0]
  unfold DiverseRanker.rank
  rw [if_neg (by rw [hguard]; exact Bool.false_ne_true)]
  rw [mapExcept_getVec_ok docs hv]
  show ((Except.ok (docs.map fun r => r.vector.getD []) :
      Except String (List Vec)) >>= _) = _
  simp only [Bind.bind, Except.bind]
  unfold getVec
  rw [hqv]
  simp only []
  have hsq : (fun i => dist qv ((docs.map fun r => r.vector.getD []).getD i []))
      = (fun i => dist (query.vector.getD []) (vecAt docs i)) := by
    funext i
    rw [getD_map_vector docs i, hqv]
    rfl
  have hsd : (fun i j =>
        if i < j then
          dist ((docs.map fun r => r.vector.getD []).getD i [])
            ((docs.map fun r => r.vector.getD []).getD j [])
        else
          dist ((docs.map fun r => r.vector.getD []).getD j [])
            ((docs.map fun r => r.vector.getD []).getD i []))
      = (fun i j => dist (vecAt docs i) (vecAt docs j)) := by
    funext i j
    rw [getD_map_vector docs i, getD_map_vector docs j]
    by_cases hij : i < j
    · rw [if_pos hij]
    · rw [if_neg hij]
      exact hsym (vecAt docs j) (vecAt docs i)
  rw [hsq, hsd, mmrLoop_eq_specMMRLoop, hqv]
  rfl

/-- C3, witness: the theorem applied to a concrete query and three concrete
documents with the dot-product comparator. -/
theorem diverse_rank_is_greedy_mmr_witness :
    DiverseRanker.rank (1/2) 0 dotQ mmrQuery [mmrDoc1, mmrDoc2, mmrDoc3]
      = Except.ok ((specMMRLoop (1/2) 0
          (fun i => dotQ (mmrQuery.vector.getD [])
            (vecAt [mmrDoc1, mmrDoc2, mmrDoc3] i))
          (fun i j => dotQ (vecAt [mmrDoc1, mmrDoc2, mmrDoc3] i)
            (vecAt [mmrDoc1, mmrDoc2, mmrDoc3] j))
          [mmrDoc1, mmrDoc2, mmrDoc3].length
          (List.range [mmrDoc1, mmrDoc2, mmrDoc3].length) []).map
            (fun i => [mmrDoc1, mmrDoc2, mmrDoc3].getD i default)) :=
  diverse_rank_is_greedy_mmr (1/2) 0 dotQ mmrQuery [mmrDoc1, mmrDoc2, mmrDoc3]
    (by simp) (by decide) (by decide) dotQ_comm

/-- C4.  The claim says `TimeDecayRanker.score` divides `d.score` by
`(2 + h) ** decay_rate` with `h` the total hours between `updated_at` and
now.  The code reads `(now - updated_at).seconds`, the seconds component
of the normalised timedelta (elapsed seconds modulo one day): a document
updated exactly 24 hours ago yields `h = 0`, not 24, and scores exactly
like a fresh one — here both documents score `1/2` although one is a full
day older (with `powD` instantiated to the identity). -/
theorem time_decay_hours_ignore_days :
    hoursSinceUpdated 86400 0 = 0 ∧
    TimeDecayRanker.score (fun t => t) 86400 {}
      [{ updated_at := some 86400 }, { updated_at := some 0 }]
      = Except.ok [1/2, 1/2] := by
  constructor
  · unfold hoursSinceUpdated
    norm_num
  · show TimeDecayRanker.score _ _ _ _ = _
    simp only [TimeDecayRanker.score, mapExcept, hoursSinceUpdated, Bind.bind,
      Except.bind, List.isEmpty_cons, Bool.false_or, List.headD_cons,
      Option.isNone_some, pure, Except.pure]
    norm_num

/-- C5, counterexample: the claim says the cosine comparator returns
similarity semantics with `cosine(x, x) ≥ cosine(x, y)` for nonzero
vectors.  At `x = [1, 0]`, `y = [0, 1]` (both nonzero) the code computes
`cosine(x, x) = 0 < 1 = cosine(x, y)`: the function is
`1 − cos`, a distance, so the claimed inequality fails. -/
theorem cosine_similarity_counterexample :
    cosine [1, 0] [1, 0] = 0 ∧ cosine [1, 0] [0, 1] = 1
      ∧ ¬ (cosine [1, 0] [1, 0] ≥ cosine [1, 0] [0, 1]) := by
  have h1 : dot_product [(1:ℝ), 0] [1, 0] = 1 := by
    simp [dot_product]
  have h2 : dot_product [(1:ℝ), 0] [0, 1] = 0 := by
    simp [dot_product]
  have h3 : dot_product [(0:ℝ), 1] [0, 1] = 1 := by
    simp [dot_product]
  have hn1 : npNorm [(1:ℝ), 0] = 1 := by
    rw [npNorm, h1, Real.sqrt_one]
  have hn2 : npNorm [(0:ℝ), 1] = 1 := by
    rw [npNorm, h3, Real.sqrt_one]
  have hc1 : cosine [(1:ℝ), 0] [1, 0] = 0 := by
    rw [cosine, h1, hn1]
    norm_num
  have hc2 : cosine [(1:ℝ), 0] [0, 1] = 1 := by
    rw [cosine, h2, hn1, hn2]
    norm_num
  refine ⟨hc1, hc2, ?_⟩
  rw [hc1, hc2]
  norm_num

/-- C5, amended: the dot-product comparator returns the raw (symmetric)
dot product, a similarity; the cosine comparator returns cosine
*distance* — lower means more similar: for every nonzero `x` and nonzero
`y` of the same length, `cosine(x, x) = 0 ≤ cosine(x, y)` (the inequality
is Cauchy–Schwarz), the opposite orientation to the claim's
higher-is-more-similar reading. -/
theorem cosine_is_distance_semantics (x y : List ℝ) (hlen : x.length = y.length)
    (hx : ∃ a ∈ x, a ≠ 0) (hy : ∃ a ∈ y, a ≠ 0) :
    cosine x x = 0 ∧ 0 ≤ cosine x y
      ∧ dot_product x y = dot_product y x := by
  refine ⟨cosine_self_eq_zero x hx, ?_, dot_product_comm x y⟩
  rw [cosine, sub_nonneg]
  have hnn : 0 < npNorm x * npNorm y :=
    mul_pos (npNorm_pos x hx) (npNorm_pos y hy)
  rw [div_le_one hnn]
  exact dot_product_le_norms x y hlen

/-- C5, witness for the amended theorem at `x = [1, 0]`, `y = [0, 1]`. -/
theorem cosine_is_distance_semantics_witness :
    cosine [1, 0] [1, 0] = 0 ∧ 0 ≤ cosine [(1:ℝ), 0] [0, 1]
      ∧ dot_product [(1:ℝ), 0] [0, 1] = dot_product [0, 1] [(1:ℝ), 0] :=
  cosine_is_distance_semantics [1, 0] [0, 1] rfl
    ⟨1, by simp, one_ne_zero⟩ ⟨1, by simp, one_ne_zero⟩

/-- C6.  Whenever the time-decay component succeeds (in particular the
first document carries `updated_at`), `HybridRanker.score` returns exactly
the elementwise product of the `TimeDecayRanker.score` and
`VectorBoost.score` lists for the same `powD` (decay rate), the same
`title_content_ratio` and the same time instant `now`; both factor lists
(and the product) have one entry per input document, so the `zip` drops
nothing. -/
theorem hybrid_score_elementwise_product (powD : ℚ → ℚ) (tcr : ℚ) (now : Int)
    (query : Record) (docs : List Record) (ds : List ℚ)
    (hds : TimeDecayRanker.score powD now query docs = Except.ok ds) :
    HybridRanker.score powD tcr now query docs
        = Except.ok (List.zipWith (fun a b => a * b) ds
            (VectorBoost.score tcr query docs))
      ∧ ds.length = docs.length
      ∧ (VectorBoost.score tcr query docs).length = docs.length
      ∧ (List.zipWith (fun a b => a * b) ds
          (VectorBoost.score tcr query docs)).length = docs.length := by
  have hdl : ds.length = docs.length := by
    unfold TimeDecayRanker.score at hds
    by_cases hcase : docs.isEmpty || ((docs.headD default).updated_at).isNone
    · rw [if_pos hcase] at hds
      cases hds
    · rw [if_neg hcase] at hds
      exact mapExcept_ok_length _ docs ds hds
  have hvl : (VectorBoost.score tcr query docs).length = docs.length := by
    unfold VectorBoost.score
    split <;> simp
  refine ⟨?_, hdl, hvl, ?_⟩
  · show (TimeDecayRanker.score powD now query docs >>= fun decay_score => _) = _
    rw [hds]
    rfl
  · rw [List.length_zipWith, hdl, hvl, min_self]

/-- C6, witness: a one-document batch updated at the evaluation instant. -/
theorem hybrid_score_elementwise_product_witness :
    HybridRanker.score (fun t => t) (7/10) 7200 {} [{ updated_at := some 7200 }]
        = Except.ok (List.zipWith (fun a b => a * b)
            [(1 : ℚ) / (2 + hoursSinceUpdated 7200 7200)]
            (VectorBoost.score (7/10) {} [{ updated_at := some 7200 }]))
      ∧ ([(1 : ℚ) / (2 + hoursSinceUpdated 7200 7200)]).length
          = [({ updated_at := some 7200 } : Record)].length
      ∧ (VectorBoost.score (7/10) {} [{ updated_at := some 7200 }]).length
          = [({ updated_at := some 7200 } : Record)].length
      ∧ (List.zipWith (fun a b => a * b)
            [(1 : ℚ) / (2 + hoursSinceUpdated 7200 7200)]
            (VectorBoost.score (7/10) {} [{ updated_at := some 7200 }])).length
          = [({ updated_at := some 7200 } : Record)].length :=
  hybrid_score_elementwise_product (fun t => t) (7/10) 7200 {}
    [{ updated_at := some 7200 }]
    [(1 : ℚ) / (2 + hoursSinceUpdated 7200 7200)] rfl

/-- C7.  `ReRanker.rank_records` is a left-to-right fold: for a two-stage
pipeline `[A, B]` the result is `B.rank(q, A.rank(q, docs))` (with a
raising stage aborting the chain, which `>>=` models), and in general each
stage's output list — truncations and reorderings included — is the next
stage's input, with the final stage's output returned. -/
theorem rank_records_left_fold (A B st : Stage) (rest : List Stage)
    (query : Record) (docs : List Record) :
    ReRanker.rank_records [A, B] query docs
        = (A query docs) >>= (fun ds => B query ds)
      ∧ ReRanker.rank_records (st :: rest) query docs
          = (st query docs) >>= (fun ds => ReRanker.rank_records rest query ds) := by
  constructor
  · show (A query docs >>= fun ds => B query ds >>= fun ds2 => pure ds2) = _
    cases A query docs with
    | error e => rfl
    | ok ds =>
      show (B query ds >>= fun ds2 => pure ds2) = B query ds
      exact exceptBind_pure _
  · rfl

/-- C8.  Missing-signal fast-fail on the representative first document:
if the first document lacks the required signal (`vector` for
`DiverseRanker`, `updated_at` for `TimeDecayRanker.score`), the strategy
raises its missing-signal `ValueError` immediately — for every
configuration and every tail, hence before any scoring work, producing no
output; conversely when the first document carries the signal, the
missing-signal error is never raised (any later failure is a different,
`TypeError`-class error). -/
theorem missing_signal_first_doc_fast_fail (lam : ℚ) (thr : WithBot ℚ)
    (dist : DistFn) (query : Record)
    (r0 : Record) (rest : List Record) (powD : ℚ → ℚ) (now : Int) :
    (r0.vector = none →
        DiverseRanker.rank lam thr dist query (r0 :: rest)
          = Except.error diverseMissingMsg)
      ∧ (r0.vector ≠ none →
        DiverseRanker.rank lam thr dist query (r0 :: rest)
          ≠ Except.error diverseMissingMsg)
      ∧ (r0.updated_at = none →
        TimeDecayRanker.score powD now query (r0 :: rest)
          = Except.error timeDecayMissingMsg)
      ∧ (r0.updated_at ≠ none →
        TimeDecayRanker.score powD now query (r0 :: rest)
          ≠ Except.error timeDecayMissingMsg) := by
  refine ⟨?_, ?_, ?_, ?_⟩
  · intro h
    unfold DiverseRanker.rank
    rw [if_pos (by simp [h])]
  · intro h
    unfold DiverseRanker.rank
    rw [if_neg (by simp [Option.isNone_iff_eq_none, h])]
    show (mapExcept getVec (r0 :: rest) >>= _) ≠ _
    cases hm : mapExcept getVec (r0 :: rest) with
    | error e =>
      have he : e = vecNoneTypeMsg :=
        mapExcept_error_msg getVec vecNoneTypeMsg getVec_error_msg _ _ hm
      show (Except.error e >>= _) ≠ _
      subst he
      intro hcontra
      simp only [Bind.bind, Except.bind] at hcontra
      injection hcontra with h2
      exact vecNone_ne_diverseMissing h2
    | ok vecs =>
      show (Except.ok vecs >>= _) ≠ _
      cases hqv : getVec query with
      | error e =>
        have he : e = vecNoneTypeMsg := getVec_error_msg query e hqv
        subst he
        simp only [Bind.bind, Except.bind, hqv]
        intro hcontra
        injection hcontra with h2
        exact vecNone_ne_diverseMissing h2
      | ok qv =>
        simp only [Bind.bind, Except.bind, hqv]
        intro hcontra
        cases hcontra
  · intro h
    unfold TimeDecayRanker.score
    rw [if_pos (by simp [h])]
  · intro h
    unfold TimeDecayRanker.score
    rw [if_neg (by simp [Option.isNone_iff_eq_none, h])]
    cases hm : mapExcept (fun r =>
        match r.updated_at with
        | none => Except.error updNoneTypeMsg
        | some t => Except.ok (r.score / powD (2 + hoursSinceUpdated now t)))
        (r0 :: rest) with
    | error e =>
      have he : e = updNoneTypeMsg := by
        refine mapExcept_error_msg _ updNoneTypeMsg ?_ _ _ hm
        intro a e2 ha
        cases hu : a.updated_at with
        | none => rw [hu] at ha; cases ha; rfl
        | some t => rw [hu] at ha; cases ha
      subst he
      intro hcontra
      injection hcontra with h2
      exact updNone_ne_timeDecayMissing h2
    | ok scores =>
      intro hcontra
      cases hcontra

/-- C8, witness: concrete batches with and without the required signal. -/
theorem missing_signal_first_doc_fast_fail_witness :
    DiverseRanker.rank 1 0 dotQ mmrQuery [{ text := "nv" }]
        = Except.error diverseMissingMsg
      ∧ DiverseRanker.rank 1 0 dotQ mmrQuery [mmrDoc1]
        ≠ Except.error diverseMissingMsg
      ∧ TimeDecayRanker.score (fun t => t) 0 mmrQuery [{ text := "nv" }]
        = Except.error timeDecayMissingMsg
      ∧ TimeDecayRanker.score (fun t => t) 0 mmrQuery [{ updated_at := some 0 }]
        ≠ Except.error timeDecayMissingMsg :=
  ⟨(missing_signal_first_doc_fast_fail 1 0 dotQ mmrQuery { text := "nv" } []
      (fun t => t) 0).1 rfl,
   (missing_signal_first_doc_fast_fail 1 0 dotQ mmrQuery mmrDoc1 []
      (fun t => t) 0).2.1 (by decide),
   (missing_signal_first_doc_fast_fail 1 0 dotQ mmrQuery { text := "nv" } []
      (fun t => t) 0).2.2.1 rfl,
   (missing_signal_first_doc_fast_fail 1 0 dotQ mmrQuery { updated_at := some 0 } []
      (fun t => t) 0).2.2.2 (by decide)⟩

/-- C9.  With `threshold = -inf` (`⊥`) the early stop `mmr < threshold`
never fires, so `DiverseRanker.rank` on a non-empty all-vector batch
succeeds with an output that is a permutation of the input documents — the
same multiset reordered — of exactly the input length. -/
theorem diverse_rank_neg_inf_threshold (lam : ℚ) (dist : DistFn)
    (query : Record) (docs : List Record)
    (hne : docs ≠ []) (hv : ∀ r ∈ docs, r.vector.isSome)
    (hq : query.vector.isSome) :
    ∃ out, DiverseRanker.rank lam ⊥ dist query docs = Except.ok out
      ∧ out.Perm docs ∧ out.length = docs.length := by
  obtain ⟨qv, hqv⟩ := Option.isSome_iff_exists.mp hq
  have hguard : (docs.isEmpty || ((docs.headD default).vector).isNone) = false := by
    cases docs with
    | nil => exact absurd rfl hne
    | cons d dsx =>
      obtain ⟨v0, hv0⟩ := Option.isSome_iff_exists.mp (hv d (by simp))
      simp [hv0]
  have hperm : ((mmrLoop lam ⊥
        (fun i => dist qv ((docs.map fun r => r.vector.getD []).getD i []))
        (fun i j =>
          if i < j then
            dist ((docs.map fun r => r.vector.getD []).getD i [])
              ((docs.map fun r => r.vector.getD []).getD j [])
          else
            dist ((docs.map fun r => r.vector.getD []).getD j [])
              ((docs.map fun r => r.vector.getD []).getD i []))
        docs.length (List.range docs.length) []).map
          (fun i => docs.getD i default)).Perm docs := by
    have h1 := mmrLoop_bot_perm lam
      (fun i => dist qv ((docs.map fun r => r.vector.getD []).getD i []))
      (fun i j =>
        if i < j then
          dist ((docs.map fun r => r.vector.getD []).getD i [])
            ((docs.map fun r => r.vector.getD []).getD j [])
        else
          dist ((docs.map fun r => r.vector.getD []).getD j [])
            ((docs.map fun r => r.vector.getD []).getD i []))
      docs.length (List.range docs.length) [] (by simp)
    rw [List.nil_append] at h1
    have h2 := h1.map (fun i => docs.getD i default)
    rw [range_map_getD docs] at h2
    exact h2
  refine ⟨_, ?_, hperm, hperm.length_eq⟩
  unfold DiverseRanker.rank
  rw [if_neg (by rw [hguard]; exact Bool.false_ne_true)]
  rw [mapExcept_getVec_ok docs hv]
  show ((Except.ok (docs.map fun r => r.vector.getD []) :
      Except String (List Vec)) >>= _) = _
  simp only [Bind.bind, Except.bind]
  unfold getVec
  rw [hqv]
  rfl

/-- C9, witness: the theorem applied to the concrete three-document batch. -/
theorem diverse_rank_neg_inf_threshold_witness :
    ∃ out, DiverseRanker.rank (1/2) ⊥ dotQ mmrQuery [mmrDoc1, mmrDoc2, mmrDoc3]
        = Except.ok out
      ∧ out.Perm [mmrDoc1, mmrDoc2, mmrDoc3]
      ∧ out.length = [mmrDoc1, mmrDoc2, mmrDoc3].length :=
  diverse_rank_neg_inf_threshold (1/2) dotQ mmrQuery [mmrDoc1, mmrDoc2, mmrDoc3]
    (by simp) (by decide) (by decide)

/-- C10.  On an empty batch `DiverseRanker.rank` and
`TimeDecayRanker.score` raise exactly the missing-signal `ValueError` they
raise when the signal is absent (shown by equality with a signal-less
one-document batch), while `KeywordBoost.score` and `VectorBoost.score`
return an empty score list without raising. -/
theorem empty_batch_behavior (lam : ℚ) (thr : WithBot ℚ) (dist : DistFn)
    (query : Record) (powD : ℚ → ℚ) (now : Int) (tcr : ℚ) :
    DiverseRanker.rank lam thr dist query [] = Except.error diverseMissingMsg
      ∧ DiverseRanker.rank lam thr dist query []
          = DiverseRanker.rank lam thr dist query [{ text := "no signals" }]
      ∧ TimeDecayRanker.score powD now query [] = Except.error timeDecayMissingMsg
      ∧ TimeDecayRanker.score powD now query []
          = TimeDecayRanker.score powD now query [{ text := "no signals" }]
      ∧ KeywordBoost.score tcr query [] = []
      ∧ VectorBoost.score tcr query [] = [] :=
  ⟨rfl, rfl, rfl, rfl, rfl, rfl⟩

end Reranker
